import Mathlib

/-!
Shallow embedding of the co-watch-sync repository.

Server side: the two signaling-server implementations
(`src/unnamed/part_000`, CommonJS, embedded with suffix `Cjs`, and
`src/unnamed/part_001`, ESM, embedded with suffix `Esm`).  A JavaScript
`Map` is embedded as an insertion-ordered association list: `Map.set` on
an existing key updates the value in place (keeping the entry position),
on a fresh key appends; `Map.delete` removes the entry; iteration is in
list order, which matches JS `Map` iteration (insertion order).

Client side: `src/src/lib/webrtc.ts` (`WebRTCManager`).  JSON values on
the data channel are embedded as a `Json` inductive; `JSON.stringify`
followed by `JSON.parse` on the wire is the identity on such values, so
channel delivery hands the receiver the same `Json` value the sender
built.
-/

namespace CoWatch

/-- Lookup in a JS `Map` embedded as an association list (`Map.get`). -/
def mapGet {α : Type} : List (String × α) → String → Option α
  | [], _ => none
  | (k', v) :: rest, k => if k' = k then some v else mapGet rest k

/-- Key-membership test (`Map.has`). -/
def mapHas {α : Type} (l : List (String × α)) (k : String) : Bool :=
  (mapGet l k).isSome

/-- Insertion/update (`Map.set`): update in place if the key exists, else append. -/
def mapSet {α : Type} : List (String × α) → String → α → List (String × α)
  | [], k, v => [(k, v)]
  | (k', v') :: rest, k, v =>
      if k' = k then (k, v) :: rest else (k', v') :: mapSet rest k v

/-- Removal (`Map.delete`). -/
def mapDelete {α : Type} : List (String × α) → String → List (String × α)
  | [], _ => []
  | (k', v') :: rest, k => if k' = k then rest else (k', v') :: mapDelete rest k

/-- Participant record stored in a room's `users` map: `{username, isHost, joinedAt}`. -/
structure Participant where
  username : String
  isHost : Bool
  joinedAt : Nat
deriving DecidableEq

/-- Room record: `{users: Map(socketId -> Participant), peersCount}`.
`peersCount` is stored separately in the source, so it is a separate field here. -/
structure Room where
  users : List (String × Participant)
  peersCount : Nat
deriving DecidableEq

/-- Server state: the global `rooms` map, plus each connected socket's set of
socket.io broadcast rooms (`socket.rooms` minus the socket's own id room). -/
structure ServerState where
  rooms : List (String × Room)
  memb : List (String × List String)
deriving DecidableEq

/-- Fresh server: no rooms, no socket.io memberships. -/
def initServer : ServerState := ⟨[], []⟩

/-- Messages the server emits over socket.io. -/
inductive SMsg
  | roomJoined (roomId : String) (peersCount : Nat) (isHost : Bool)
  | peerJoined (peerId : String) (peersCount : Nat) (username : String)
  | readyToConnect
  | offerRelay (payload : String) (peerId : String)
  | answerRelay (payload : String) (peerId : String)
  | iceRelay (payload : String) (peerId : String)
  | peerLeft (peerId : String) (peersCount : Nat) (username : String)
deriving DecidableEq

/-- An emission: `socket.emit`/`io.to(sid).emit` is a unicast to one connection;
`socket.to(roomId).emit` is a broadcast to the socket.io room minus the sender. -/
inductive SEmit
  | unicast (target : String) (msg : SMsg)
  | toRoom (roomId : String) (exceptSid : String) (msg : SMsg)
deriving DecidableEq

/-- Incoming server events.  `rnd` stands for the `Math.random()` draw used for a
defaulted username and `now` for `new Date()` (the join timestamp). -/
inductive SEvent
  | joinRoom (sid roomId : String) (isHost : Bool) (username : String) (rnd : Nat) (now : Nat)
  | offerEv (sid roomId payload : String)
  | answerEv (sid roomId payload : String)
  | iceEv (sid roomId payload : String)
  | leaveRoom (sid roomId : String)
  | disconnectEv (sid : String)
deriving DecidableEq

/-- Effective username: `username || \x7bUser$(random*1000)\x7d` — the default
fires on a falsy (here: empty) username. -/
def effectiveUsername (username : String) (rnd : Nat) : String :=
  if username = "" then "User" ++ toString (rnd % 1000) else username

/-- The `socket.leave(roomId)` primitive: drop `roomId` from this socket's
socket.io room set (a no-op when the socket is not a member). -/
def sockLeave (memb : List (String × List String)) (sid roomId : String) :
    List (String × List String) :=
  match mapGet memb sid with
  | none => memb
  | some rs => mapSet memb sid (rs.erase roomId)

/-- Find the first participant flagged `isHost` in iteration order
(`Array.from(room.users.entries()).find(([_, user]) => user.isHost)?.[0]`). -/
def findHost (users : List (String × Participant)) : Option String :=
  (users.find? (fun p => p.2.isHost)).map (·.1)

/-- The `username` read back for the peer-joined broadcast
(`room.users.get(socket.id).username`). -/
def usernameOf (users : List (String × Participant)) (sid : String) : String :=
  match mapGet users sid with
  | some u => u.username
  | none => ""

/-- CommonJS server's `getRoomInfo`: returns the room, creating an empty one in
the map if absent.  Returns the (possibly extended) map together with the room. -/
def getRoomInfo (rooms : List (String × Room)) (roomId : String) :
    List (String × Room) × Room :=
  match mapGet rooms roomId with
  | some r => (rooms, r)
  | none => (mapSet rooms roomId ⟨[], 0⟩, ⟨[], 0⟩)

/-- CommonJS `join-room` handler: clear the socket's previous socket.io rooms and
join `roomId`; get-or-create the room; insert/overwrite the participant; refresh
`peersCount`; unicast `room-joined`; broadcast `peer-joined`; if the room now has
exactly 2 peers, unicast `ready-to-connect` to the first host found. -/
def handleJoinCjs (s : ServerState) (sid roomId : String) (isHost : Bool)
    (username : String) (rnd now : Nat) : ServerState × List SEmit :=
  let memb1 := mapSet s.memb sid [roomId]
  let (rooms1, room) := getRoomInfo s.rooms roomId
  let uname := effectiveUsername username rnd
  let users1 := mapSet room.users sid ⟨uname, isHost, now⟩
  let room1 : Room := ⟨users1, users1.length⟩
  let rooms2 := mapSet rooms1 roomId room1
  let readyEmits :=
    if room1.peersCount = 2 then
      match findHost room1.users with
      | some hostSid => [SEmit.unicast hostSid SMsg.readyToConnect]
      | none => []
    else []
  (⟨rooms2, memb1⟩,
    SEmit.unicast sid (SMsg.roomJoined roomId room1.peersCount isHost)
      :: SEmit.toRoom roomId sid (SMsg.peerJoined sid room1.peersCount (usernameOf users1 sid))
      :: readyEmits)

/-- CommonJS `offer` handler: opaque relay to the room minus the sender. -/
def handleOfferCjs (s : ServerState) (sid roomId payload : String) :
    ServerState × List SEmit :=
  (s, [SEmit.toRoom roomId sid (SMsg.offerRelay payload sid)])

/-- CommonJS `answer` handler: opaque relay to the room minus the sender. -/
def handleAnswerCjs (s : ServerState) (sid roomId payload : String) :
    ServerState × List SEmit :=
  (s, [SEmit.toRoom roomId sid (SMsg.answerRelay payload sid)])

/-- CommonJS `ice-candidate` handler: opaque relay to the room minus the sender. -/
def handleIceCjs (s : ServerState) (sid roomId payload : String) :
    ServerState × List SEmit :=
  (s, [SEmit.toRoom roomId sid (SMsg.iceRelay payload sid)])

/-- CommonJS `leave-room` handler: `socket.leave(roomId)`, then `getRoomInfo`
(which creates the room when absent); if the participant is present, remove it,
refresh `peersCount` and broadcast `peer-left`.  No empty-room deletion. -/
def handleLeaveCjs (s : ServerState) (sid roomId : String) :
    ServerState × List SEmit :=
  let memb1 := sockLeave s.memb sid roomId
  let (rooms1, room) := getRoomInfo s.rooms roomId
  match mapGet room.users sid with
  | some user =>
      let users1 := mapDelete room.users sid
      let room1 : Room := ⟨users1, users1.length⟩
      (⟨mapSet rooms1 roomId room1, memb1⟩,
        [SEmit.toRoom roomId sid (SMsg.peerLeft sid room1.peersCount user.username)])
  | none => (⟨rooms1, memb1⟩, [])

/-- One step of the `disconnect` scan (`rooms.forEach`), CommonJS: for each room
holding the socket, remove it, refresh `peersCount`, broadcast `peer-left`, and
delete the room if it became empty. -/
def disconnectRoomsCjs (sid : String) : List (String × Room) →
    List (String × Room) × List SEmit
  | [] => ([], [])
  | (rid, room) :: rest =>
      let tail := disconnectRoomsCjs sid rest
      match mapGet room.users sid with
      | some user =>
          let users1 := mapDelete room.users sid
          let room1 : Room := ⟨users1, users1.length⟩
          let e := SEmit.toRoom rid sid (SMsg.peerLeft sid room1.peersCount user.username)
          if room1.peersCount = 0 then (tail.1, e :: tail.2)
          else ((rid, room1) :: tail.1, e :: tail.2)
      | none => ((rid, room) :: tail.1, tail.2)

/-- CommonJS `disconnect` handler: scan every room, plus the socket's own
socket.io state disappearing with the closed connection. -/
def handleDisconnectCjs (s : ServerState) (sid : String) : ServerState × List SEmit :=
  let scanned := disconnectRoomsCjs sid s.rooms
  (⟨scanned.1, mapDelete s.memb sid⟩, scanned.2)

/-- CommonJS server: one event dispatch. -/
def stepCjs (s : ServerState) : SEvent → ServerState × List SEmit
  | .joinRoom sid roomId isHost username rnd now =>
      handleJoinCjs s sid roomId isHost username rnd now
  | .offerEv sid roomId payload => handleOfferCjs s sid roomId payload
  | .answerEv sid roomId payload => handleAnswerCjs s sid roomId payload
  | .iceEv sid roomId payload => handleIceCjs s sid roomId payload
  | .leaveRoom sid roomId => handleLeaveCjs s sid roomId
  | .disconnectEv sid => handleDisconnectCjs s sid

/-- CommonJS server: run a sequence of events, accumulating emissions. -/
def runCjs : ServerState → List SEvent → ServerState × List SEmit
  | s, [] => (s, [])
  | s, e :: es =>
      let p := stepCjs s e
      let q := runCjs p.1 es
      (q.1, p.2 ++ q.2)

/-- ESM server's `getOrCreateRoom` (identical to the CommonJS `getRoomInfo`). -/
def getOrCreateRoom (rooms : List (String × Room)) (roomId : String) :
    List (String × Room) × Room :=
  match mapGet rooms roomId with
  | some r => (rooms, r)
  | none => (mapSet rooms roomId ⟨[], 0⟩, ⟨[], 0⟩)

/-- ESM `join-room` handler (line-for-line the CommonJS logic). -/
def handleJoinEsm (s : ServerState) (sid roomId : String) (isHost : Bool)
    (username : String) (rnd now : Nat) : ServerState × List SEmit :=
  let memb1 := mapSet s.memb sid [roomId]
  let (rooms1, room) := getOrCreateRoom s.rooms roomId
  let uname := effectiveUsername username rnd
  let users1 := mapSet room.users sid ⟨uname, isHost, now⟩
  let room1 : Room := ⟨users1, users1.length⟩
  let rooms2 := mapSet rooms1 roomId room1
  let readyEmits :=
    if room1.peersCount = 2 then
      match findHost room1.users with
      | some hostSid => [SEmit.unicast hostSid SMsg.readyToConnect]
      | none => []
    else []
  (⟨rooms2, memb1⟩,
    SEmit.unicast sid (SMsg.roomJoined roomId room1.peersCount isHost)
      :: SEmit.toRoom roomId sid (SMsg.peerJoined sid room1.peersCount (usernameOf users1 sid))
      :: readyEmits)

/-- ESM `offer` handler. -/
def handleOfferEsm (s : ServerState) (sid roomId payload : String) :
    ServerState × List SEmit :=
  (s, [SEmit.toRoom roomId sid (SMsg.offerRelay payload sid)])

/-- ESM `answer` handler. -/
def handleAnswerEsm (s : ServerState) (sid roomId payload : String) :
    ServerState × List SEmit :=
  (s, [SEmit.toRoom roomId sid (SMsg.answerRelay payload sid)])

/-- ESM `ice-candidate` handler. -/
def handleIceEsm (s : ServerState) (sid roomId payload : String) :
    ServerState × List SEmit :=
  (s, [SEmit.toRoom roomId sid (SMsg.iceRelay payload sid)])

/-- ESM `leave-room` handler: `getRoom` (no creation) and early return when the
room is absent; otherwise `socket.leave`, and when the participant is present
remove it, broadcast `peer-left`, and delete the room once `peersCount` is 0. -/
def handleLeaveEsm (s : ServerState) (sid roomId : String) :
    ServerState × List SEmit :=
  match mapGet s.rooms roomId with
  | none => (s, [])
  | some room =>
      let memb1 := sockLeave s.memb sid roomId
      match mapGet room.users sid with
      | some user =>
          let users1 := mapDelete room.users sid
          let room1 : Room := ⟨users1, users1.length⟩
          let emits := [SEmit.toRoom roomId sid (SMsg.peerLeft sid room1.peersCount user.username)]
          if room1.peersCount = 0 then (⟨mapDelete s.rooms roomId, memb1⟩, emits)
          else (⟨mapSet s.rooms roomId room1, memb1⟩, emits)
      | none => (⟨s.rooms, memb1⟩, [])

/-- One step of the `disconnect` scan, ESM (identical to the CommonJS scan). -/
def disconnectRoomsEsm (sid : String) : List (String × Room) →
    List (String × Room) × List SEmit
  | [] => ([], [])
  | (rid, room) :: rest =>
      let tail := disconnectRoomsEsm sid rest
      match mapGet room.users sid with
      | some user =>
          let users1 := mapDelete room.users sid
          let room1 : Room := ⟨users1, users1.length⟩
          let e := SEmit.toRoom rid sid (SMsg.peerLeft sid room1.peersCount user.username)
          if room1.peersCount = 0 then (tail.1, e :: tail.2)
          else ((rid, room1) :: tail.1, e :: tail.2)
      | none => ((rid, room) :: tail.1, tail.2)

/-- ESM `disconnect` handler. -/
def handleDisconnectEsm (s : ServerState) (sid : String) : ServerState × List SEmit :=
  let scanned := disconnectRoomsEsm sid s.rooms
  (⟨scanned.1, mapDelete s.memb sid⟩, scanned.2)

/-- ESM server: one event dispatch. -/
def stepEsm (s : ServerState) : SEvent → ServerState × List SEmit
  | .joinRoom sid roomId isHost username rnd now =>
      handleJoinEsm s sid roomId isHost username rnd now
  | .offerEv sid roomId payload => handleOfferEsm s sid roomId payload
  | .answerEv sid roomId payload => handleAnswerEsm s sid roomId payload
  | .iceEv sid roomId payload => handleIceEsm s sid roomId payload
  | .leaveRoom sid roomId => handleLeaveEsm s sid roomId
  | .disconnectEv sid => handleDisconnectEsm s sid

/-- ESM server: run a sequence of events, accumulating emissions. -/
def runEsm : ServerState → List SEvent → ServerState × List SEmit
  | s, [] => (s, [])
  | s, e :: es =>
      let p := stepEsm s e
      let q := runEsm p.1 es
      (q.1, p.2 ++ q.2)

/-- JSON values carried on the data channel (numbers as rationals; JS numbers
are only carried opaquely by the code under scrutiny). -/
inductive Json
  | null
  | bool (b : Bool)
  | num (q : Rat)
  | str (s : String)
  | arr (elems : List Json)
  | obj (fields : List (String × Json))

/-- Property access `j[k]`: `none` models JS `undefined`. -/
def jget : Json → String → Option Json
  | .obj fields, k => mapGet fields k
  | _, _ => none

/-- Fields of a JS object literal with possible duplicate keys (as arise from a
spread): first occurrence fixes the position, last occurrence fixes the value. -/
def objFields (l : List (String × Json)) : List (String × Json) :=
  l.foldl (fun acc p => mapSet acc p.1 p.2) []

/-- The chat envelope built by `sendMessage`:
`\x7btype: 'chat', text, sender: this.username, timestamp: new Date().toISOString()\x7d`. -/
def chatEnvelope (text sender tsISO : String) : Json :=
  .obj [("type", .str "chat"), ("text", .str text),
    ("sender", .str sender), ("timestamp", .str tsISO)]

/-- The player-sync envelope built by `syncPlayer`:
`\x7btype: 'player-sync', data: \x7baction, ...data\x7d\x7d`. -/
def playerSyncEnvelope (action : String) (data : List (String × Json)) : Json :=
  .obj [("type", .str "player-sync"),
    ("data", .obj (objFields (("action", .str action) :: data)))]

/-- An `RTCDataChannel` as far as the code observes it: its `readyState` string. -/
structure DataChannel where
  readyState : String
deriving DecidableEq

/-- The mutable fields of a `WebRTCManager` that the embedded methods read or
write.  `hasPeerConnection` is `this.peerConnection !== null`. -/
structure ClientState where
  roomId : String
  isHost : Bool
  username : String
  peersCount : Int
  hasPeerConnection : Bool
  dataChannel : Option DataChannel
deriving DecidableEq

/-- Observable operations a client handler performs, in program order.  The
description-set/create steps are recorded as actions; a failing step would stop
the suffix (handlers catch and log), so a run records the success path. -/
inductive CAction
  | setRemoteDescription (payload : String)
  | createAnswer
  | createOffer
  | setLocalDescription
  | addIceCandidate (payload : String)
  | emitOffer (roomId : String)
  | emitAnswer (roomId : String)
  | cbConnectionChange (status : String) (peersCount : Int)
  | channelSend (payload : Json)
  | cbMessage (text sender timestampRaw : Option Json)
  | cbPlayerSync (data : Option Json)

/-- Signaling events delivered to the client, with the payload fields the
handlers read. -/
inductive CEvent
  | roomJoined (peersCount : Int)
  | peerJoined (peersCount : Int)
  | peerLeft (peersCount : Int)
  | offerMsg (payload : String)
  | answerMsg (payload : String)
  | iceMsg (payload : String)
  | readyToConnect

/-- The handlers registered by `setupSignalingHandlers`, one dispatch per
incoming signaling event.  `?.` on a null `peerConnection` skips the call. -/
def handleSignal (s : ClientState) : CEvent → ClientState × List CAction
  | .roomJoined pc => ({ s with peersCount := pc - 1 }, [])
  | .peerJoined pc =>
      ({ s with peersCount := pc - 1 },
        [.cbConnectionChange "connecting" (pc - 1)])
  | .peerLeft pc =>
      let n := max 0 (pc - 1)
      ({ s with peersCount := n },
        [.cbConnectionChange (if n > 0 then "connected" else "disconnected") n])
  | .offerMsg payload =>
      (s, (if s.hasPeerConnection then
            [.setRemoteDescription payload, .createAnswer, .setLocalDescription]
          else []) ++ [.emitAnswer s.roomId])
  | .answerMsg payload =>
      (s, if s.hasPeerConnection then [.setRemoteDescription payload] else [])
  | .iceMsg payload =>
      (s, if s.hasPeerConnection then [.addIceCandidate payload] else [])
  | .readyToConnect =>
      if s.isHost && s.hasPeerConnection then
        (s, [.createOffer, .setLocalDescription, .emitOffer s.roomId])
      else (s, [])

/-- The `sendMessage(text)` method: build and send the chat envelope only when
the data channel exists and `readyState === 'open'`. -/
def sendMessage (s : ClientState) (text : String) (nowISO : String) :
    ClientState × List CAction :=
  match s.dataChannel with
  | some ch =>
      if ch.readyState = "open" then
        (s, [.channelSend (chatEnvelope text s.username nowISO)])
      else (s, [])
  | none => (s, [])

/-- The `syncPlayer(action, data?)` method: build and send the player-sync
envelope only when the data channel exists and `readyState === 'open'`. -/
def syncPlayer (s : ClientState) (action : String) (data : List (String × Json)) :
    ClientState × List CAction :=
  match s.dataChannel with
  | some ch =>
      if ch.readyState = "open" then
        (s, [.channelSend (playerSyncEnvelope action data)])
      else (s, [])
  | none => (s, [])

/-- The data channel `onmessage` handler, applied to the parsed message value:
dispatch on `message.type`, handing the `chat` fields respectively the
`player-sync` `data` object to the registered callbacks. -/
def onDataMessage (j : Json) : List CAction :=
  match jget j "type" with
  | some (.str t) =>
      if t = "chat" then
        [.cbMessage (jget j "text") (jget j "sender") (jget j "timestamp")]
      else if t = "player-sync" then
        [.cbPlayerSync (jget j "data")]
      else []
  | _ => []

/-- Test for the `ready-to-connect` unicast among emissions. -/
def isReadyUnicast : SEmit → Bool
  | .unicast _ .readyToConnect => true
  | _ => false

/-- Test for a `peer-left` broadcast addressed to room `rid`. -/
def isPeerLeftTo (rid : String) : SEmit → Bool
  | .toRoom r _ (.peerLeft _ _ _) => r = rid
  | _ => false

/-- Test for the client actions that create or send an SDP offer. -/
def isOfferAction : CAction → Bool
  | .createOffer => true
  | .emitOffer _ => true
  | _ => false

/-- The guard `this.dataChannel && this.dataChannel.readyState === 'open'`. -/
def isChannelOpen (s : ClientState) : Bool :=
  match s.dataChannel with
  | some ch => ch.readyState = "open"
  | none => false

/-- Drop an empty room from an optional lookup result: the view of a registry
entry in which a room with no participants counts as absent. -/
def stripEmpty : Option Room → Option Room
  | some r => if r.users.isEmpty then none else some r
  | none => none

/-- The peer-left emission a disconnect scan produces for one room entry. -/
def emitOf (sid : String) (p : String × Room) : List SEmit :=
  match mapGet p.2.users sid with
  | some user =>
      [SEmit.toRoom p.1 sid
        (SMsg.peerLeft sid (mapDelete p.2.users sid).length user.username)]
  | none => []

/-- The coupling between a CommonJS-server state and an ESM-server state under
which the two servers stay in lock-step: registries agree on every room viewed
through `stripEmpty` (the CommonJS side may hold extra empty rooms), socket.io
memberships coincide, room keys are duplicate-free, the ESM side never holds an
empty room, and every socket.io membership points at a registry room that still
contains the socket. -/
structure EquivInv (a b : ServerState) : Prop where
  agree : ∀ rid, stripEmpty (mapGet a.rooms rid) = mapGet b.rooms rid
  memb_eq : a.memb = b.memb
  aNodup : (a.rooms.map Prod.fst).Nodup
  bNodup : (b.rooms.map Prod.fst).Nodup
  membNodup : (a.memb.map Prod.fst).Nodup
  bne : ∀ rid room, mapGet b.rooms rid = some room → room.users ≠ []
  membOK : ∀ sid0 rs, mapGet a.memb sid0 = some rs → rs.Nodup ∧
    ∀ rid ∈ rs, ∃ room, mapGet b.rooms rid = some room ∧ mapHas room.users sid0 = true

end CoWatch

namespace CoWatch

theorem mapGet_mapSet_self {α : Type} (l : List (String × α)) (k : String) (v : α) :
    mapGet (mapSet l k v) k = some v := by
  induction l with
  | nil => simp [mapSet, mapGet]
  | cons hd tl ih =>
      by_cases hk : hd.1 = k
      · obtain ⟨k1, v1⟩ := hd
        simp only at hk
        subst hk
        simp [mapSet, mapGet]
      · simp [mapSet, hk, mapGet, ih]

theorem mapGet_mapSet_ne {α : Type} (l : List (String × α)) {k k' : String} (v : α)
    (h : k' ≠ k) : mapGet (mapSet l k v) k' = mapGet l k' := by
  have hne : ¬(k = k') := fun hh => h hh.symm
  induction l with
  | nil => simp [mapSet, mapGet, hne]
  | cons hd tl ih =>
      by_cases hk : hd.1 = k
      · obtain ⟨k1, v1⟩ := hd
        simp only at hk
        subst hk
        simp [mapSet, mapGet, hne]
      · simp [mapSet, hk, mapGet, ih]

theorem mapSet_eq_self {α : Type} {l : List (String × α)} {k : String} {v : α}
    (h : mapGet l k = some v) : mapSet l k v = l := by
  induction l with
  | nil => simp [mapGet] at h
  | cons hd tl ih =>
      by_cases hk : hd.1 = k
      · obtain ⟨k1, v1⟩ := hd
        simp only at hk
        subst hk
        simp [mapGet] at h
        subst h
        simp [mapSet]
      · simp only [mapGet, if_neg hk] at h
        simp [mapSet, hk, ih h]

theorem mapGet_mapDelete_ne {α : Type} (l : List (String × α)) {k k' : String}
    (h : k' ≠ k) : mapGet (mapDelete l k) k' = mapGet l k' := by
  have hne : ¬(k = k') := fun hh => h hh.symm
  induction l with
  | nil => simp [mapDelete]
  | cons hd tl ih =>
      by_cases hk : hd.1 = k
      · obtain ⟨k1, v1⟩ := hd
        simp only at hk
        subst hk
        simp [mapDelete, mapGet, hne]
      · simp [mapDelete, hk, mapGet, ih]

theorem mapGet_eq_none_iff {α : Type} (l : List (String × α)) (k : String) :
    mapGet l k = none ↔ k ∉ l.map Prod.fst := by
  induction l with
  | nil => simp [mapGet]
  | cons hd tl ih =>
      by_cases hk : hd.1 = k
      · simp [mapGet, hk]
      · have hne : ¬(k = hd.1) := fun hh => hk hh.symm
        simp [mapGet, hk, ih, hne]

theorem mapGet_isSome_iff {α : Type} (l : List (String × α)) (k : String) :
    (mapGet l k).isSome = true ↔ k ∈ l.map Prod.fst := by
  constructor
  · intro hs
    by_contra hmem
    rw [← mapGet_eq_none_iff l k] at hmem
    simp [hmem] at hs
  · intro hmem
    cases hg : mapGet l k with
    | none => exact absurd ((mapGet_eq_none_iff l k).mp hg) (by simp [hmem])
    | some v => simp

theorem mapGet_mapDelete_self {α : Type} (l : List (String × α)) (k : String)
    (h : (l.map Prod.fst).Nodup) : mapGet (mapDelete l k) k = none := by
  induction l with
  | nil => simp [mapDelete, mapGet]
  | cons hd tl ih =>
      simp only [List.map_cons, List.nodup_cons] at h
      by_cases hk : hd.1 = k
      · subst hk
        simp only [mapDelete, if_pos rfl]
        exact (mapGet_eq_none_iff tl hd.1).mpr h.1
      · simp [mapDelete, hk, mapGet, ih h.2]

theorem mapSet_keys {α : Type} (l : List (String × α)) (k : String) (v : α) :
    (mapSet l k v).map Prod.fst =
      if mapHas l k then l.map Prod.fst else l.map Prod.fst ++ [k] := by
  induction l with
  | nil => simp [mapSet, mapHas, mapGet]
  | cons hd tl ih =>
      by_cases hk : hd.1 = k
      · obtain ⟨k1, v1⟩ := hd
        simp only at hk
        subst hk
        simp [mapSet, mapHas, mapGet]
      · simp only [mapSet, if_neg hk, List.map_cons, ih]
        have : mapHas (hd :: tl) k = mapHas tl k := by
          simp [mapHas, mapGet, hk]
        rw [this]
        by_cases htl : mapHas tl k
        · simp [htl]
        · simp [htl]

theorem nodup_keys_mapSet {α : Type} (l : List (String × α)) (k : String) (v : α)
    (h : (l.map Prod.fst).Nodup) : ((mapSet l k v).map Prod.fst).Nodup := by
  rw [mapSet_keys]
  by_cases hk : mapHas l k
  · simpa [hk]
  · rw [if_neg hk, List.nodup_append]
    refine ⟨h, List.nodup_singleton k, ?_⟩
    intro a ha hb
    simp only [List.mem_singleton] at hb
    subst hb
    have : (mapGet l a).isSome = true := (mapGet_isSome_iff l a).mpr ha
    simp [mapHas, this] at hk

theorem mapDelete_keys_sublist {α : Type} (l : List (String × α)) (k : String) :
    List.Sublist ((mapDelete l k).map Prod.fst) (l.map Prod.fst) := by
  induction l with
  | nil => simp [mapDelete]
  | cons hd tl ih =>
      by_cases hk : hd.1 = k
      · simp only [mapDelete, if_pos hk, List.map_cons]
        exact (List.Sublist.refl _).cons hd.1
      · simp only [mapDelete, if_neg hk, List.map_cons]
        exact ih.cons₂ hd.1

theorem nodup_keys_mapDelete {α : Type} (l : List (String × α)) (k : String)
    (h : (l.map Prod.fst).Nodup) : ((mapDelete l k).map Prod.fst).Nodup :=
  (mapDelete_keys_sublist l k).nodup h


theorem handleJoinEsm_eq_handleJoinCjs : handleJoinEsm = handleJoinCjs := rfl

theorem disconnectRoomsEsm_eq_cjs (sid : String) (l : List (String × Room)) :
    disconnectRoomsEsm sid l = disconnectRoomsCjs sid l := by
  induction l with
  | nil => rfl
  | cons hd tl ih => simp [disconnectRoomsEsm, disconnectRoomsCjs, ih]

theorem handleDisconnectEsm_eq_cjs (s : ServerState) (sid : String) :
    handleDisconnectEsm s sid = handleDisconnectCjs s sid := by
  simp [handleDisconnectEsm, handleDisconnectCjs, disconnectRoomsEsm_eq_cjs]

/-- C1: the registry invariant fails on the CommonJS server (part_000): after
`join-room` then `leave-room` by the only participant of room "abc", the
emptied room remains in the CommonJS room map with `peersCount` 0, whereas the
ESM server (part_001) deletes it on last departure, as the invariant demands. -/
theorem c1_cjs_keeps_empty_room_after_last_leave :
    (runCjs initServer
      [.joinRoom "s1" "abc" true "Alice" 0 0, .leaveRoom "s1" "abc"]).1.rooms
      = [("abc", ⟨[], 0⟩)] ∧
    (runEsm initServer
      [.joinRoom "s1" "abc" true "Alice" 0 0, .leaveRoom "s1" "abc"]).1.rooms
      = [] := by decide

/-- C5: a `leave-room` naming a room that does not exist is not a no-op on the
CommonJS server (part_000): `getRoomInfo` inserts a fresh empty room "ghost"
into the registry (though nothing is broadcast), whereas the ESM server
(part_001) leaves the whole state exactly unchanged. -/
theorem c5_cjs_leave_room_creates_empty_room :
    (runCjs initServer [.leaveRoom "s1" "ghost"]).1.rooms = [("ghost", ⟨[], 0⟩)] ∧
    (runCjs initServer [.leaveRoom "s1" "ghost"]).2 = [] ∧
    runEsm initServer [.leaveRoom "s1" "ghost"] = (initServer, []) := by decide

/-- C3 (counterexample): after participant "p" joins room "r1" and then room
"r2", "p" is still present in r1's participant map on both servers — a join
does not remove the participantId from other rooms' registry maps. -/
theorem c3_join_does_not_remove_from_other_rooms :
    (mapGet (runCjs initServer
        [.joinRoom "p" "r1" true "A" 0 0, .joinRoom "p" "r2" false "A" 0 0]).1.rooms "r1"
      = some ⟨[("p", ⟨"A", true, 0⟩)], 1⟩) ∧
    (mapGet (runCjs initServer
        [.joinRoom "p" "r1" true "A" 0 0, .joinRoom "p" "r2" false "A" 0 0]).1.rooms "r2"
      = some ⟨[("p", ⟨"A", false, 0⟩)], 1⟩) ∧
    (mapGet (runEsm initServer
        [.joinRoom "p" "r1" true "A" 0 0, .joinRoom "p" "r2" false "A" 0 0]).1.rooms "r1"
      = some ⟨[("p", ⟨"A", true, 0⟩)], 1⟩) ∧
    (mapGet (runEsm initServer
        [.joinRoom "p" "r1" true "A" 0 0, .joinRoom "p" "r2" false "A" 0 0]).1.rooms "r2"
      = some ⟨[("p", ⟨"A", false, 0⟩)], 1⟩) := by decide

/-- C3 (amended): a join-room resets the joining connection's socket.io
broadcast membership to the target room only, but leaves every other room's
registry participant map untouched, on both servers; cross-room registry
cleanup happens only on disconnect. -/
theorem c3_amended_join_touches_only_target_room (s : ServerState)
    (sid roomId : String) (isHost : Bool) (username : String) (rnd now : Nat)
    (rid : String) (h : rid ≠ roomId) :
    mapGet (handleJoinCjs s sid roomId isHost username rnd now).1.rooms rid
      = mapGet s.rooms rid ∧
    mapGet (handleJoinCjs s sid roomId isHost username rnd now).1.memb sid
      = some [roomId] ∧
    mapGet (handleJoinEsm s sid roomId isHost username rnd now).1.rooms rid
      = mapGet s.rooms rid ∧
    mapGet (handleJoinEsm s sid roomId isHost username rnd now).1.memb sid
      = some [roomId] := by
  rw [handleJoinEsm_eq_handleJoinCjs]
  have hrooms : mapGet (handleJoinCjs s sid roomId isHost username rnd now).1.rooms rid
      = mapGet s.rooms rid := by
    cases hg : mapGet s.rooms roomId with
    | some r =>
        simp only [handleJoinCjs, getRoomInfo, hg]
        rw [mapGet_mapSet_ne _ _ h]
    | none =>
        simp only [handleJoinCjs, getRoomInfo, hg]
        rw [mapGet_mapSet_ne _ _ h, mapGet_mapSet_ne _ _ h]
  have hmemb : mapGet (handleJoinCjs s sid roomId isHost username rnd now).1.memb sid
      = some [roomId] := by
    cases hg : mapGet s.rooms roomId with
    | some r =>
        simp only [handleJoinCjs, getRoomInfo, hg]
        exact mapGet_mapSet_self _ _ _
    | none =>
        simp only [handleJoinCjs, getRoomInfo, hg]
        exact mapGet_mapSet_self _ _ _
  exact ⟨hrooms, hmemb, hrooms, hmemb⟩

/-- C3 (amended, witness): the amended statement evaluated after "p" joins "r2"
coming from "r1". -/
theorem c3_amended_witness :
    mapGet (handleJoinCjs ⟨[("r1", ⟨[("p", ⟨"A", true, 0⟩)], 1⟩)], [("p", ["r1"])]⟩
        "p" "r2" false "A" 0 0).1.rooms "r1"
      = mapGet (⟨[("r1", ⟨[("p", ⟨"A", true, 0⟩)], 1⟩)], [("p", ["r1"])]⟩ : ServerState).rooms "r1" ∧
    mapGet (handleJoinCjs ⟨[("r1", ⟨[("p", ⟨"A", true, 0⟩)], 1⟩)], [("p", ["r1"])]⟩
        "p" "r2" false "A" 0 0).1.memb "p" = some ["r2"] ∧
    mapGet (handleJoinEsm ⟨[("r1", ⟨[("p", ⟨"A", true, 0⟩)], 1⟩)], [("p", ["r1"])]⟩
        "p" "r2" false "A" 0 0).1.rooms "r1"
      = mapGet (⟨[("r1", ⟨[("p", ⟨"A", true, 0⟩)], 1⟩)], [("p", ["r1"])]⟩ : ServerState).rooms "r1" ∧
    mapGet (handleJoinEsm ⟨[("r1", ⟨[("p", ⟨"A", true, 0⟩)], 1⟩)], [("p", ["r1"])]⟩
        "p" "r2" false "A" 0 0).1.memb "p" = some ["r2"] :=
  c3_amended_join_touches_only_target_room _ "p" "r2" false "A" 0 0 "r1" (by decide)

/-- C10 (counterexample): the two servers are not observationally equivalent:
after `join-room` then `leave-room` of the lone participant the CommonJS server
keeps the emptied room while the ESM server has deleted it, so the final
registry states differ. -/
theorem c10_final_states_differ :
    (runCjs initServer
        [.joinRoom "s1" "abc" true "Alice" 0 0, .leaveRoom "s1" "abc"]).1
      ≠ (runEsm initServer
        [.joinRoom "s1" "abc" true "Alice" 0 0, .leaveRoom "s1" "abc"]).1 := by
  decide

/-- C2: on a join, a `ready-to-connect` unicast is emitted exactly when the
post-join room (the room stored for `roomId` after the handler) has
`peersCount` 2 and contains a participant flagged `isHost`; it is then a single
unicast to the first host in iteration order (`findHost`) and to nobody else;
and the ESM join handler behaves identically. -/
theorem c2_ready_to_connect_iff_two_peers_and_host (s : ServerState)
    (sid roomId : String) (isHost : Bool) (username : String) (rnd now : Nat)
    (room1 : Room)
    (h : mapGet (handleJoinCjs s sid roomId isHost username rnd now).1.rooms roomId
      = some room1) :
    ((handleJoinCjs s sid roomId isHost username rnd now).2.filter isReadyUnicast =
      if room1.peersCount = 2 then
        match findHost room1.users with
        | some hostSid => [SEmit.unicast hostSid SMsg.readyToConnect]
        | none => []
      else []) ∧
    handleJoinEsm s sid roomId isHost username rnd now
      = handleJoinCjs s sid roomId isHost username rnd now := by
  refine ⟨?_, by rw [handleJoinEsm_eq_handleJoinCjs]⟩
  cases hg : mapGet s.rooms roomId with
  | some r =>
      simp only [handleJoinCjs, getRoomInfo, hg, mapGet_mapSet_self,
        Option.some.injEq] at h
      subst h
      simp only [handleJoinCjs, getRoomInfo, hg]
      split
      · cases hf : findHost (mapSet r.users sid ⟨effectiveUsername username rnd, isHost, now⟩) with
        | some hostSid => simp [hf, List.filter, isReadyUnicast]
        | none => simp [hf, List.filter, isReadyUnicast]
      · simp [List.filter, isReadyUnicast]
  | none =>
      simp only [handleJoinCjs, getRoomInfo, hg, mapGet_mapSet_self,
        Option.some.injEq] at h
      subst h
      simp only [handleJoinCjs, getRoomInfo, hg]
      split
      · cases hf : findHost (mapSet ([] : List (String × Participant)) sid ⟨effectiveUsername username rnd, isHost, now⟩) with
        | some hostSid => simp [hf, List.filter, isReadyUnicast]
        | none => simp [hf, List.filter, isReadyUnicast]
      · simp [List.filter, isReadyUnicast]

/-- C2 (witness): Bob joins room "abc" as the second participant while Alice is
its host: the only ready-to-connect emission is the unicast to Alice. -/
theorem c2_witness :
    ((handleJoinCjs ⟨[("abc", ⟨[("s1", ⟨"Alice", true, 0⟩)], 1⟩)], [("s1", ["abc"])]⟩
        "s2" "abc" false "Bob" 0 0).2.filter isReadyUnicast =
      if (⟨[("s1", ⟨"Alice", true, 0⟩), ("s2", ⟨"Bob", false, 0⟩)], 2⟩ : Room).peersCount = 2 then
        match findHost (⟨[("s1", ⟨"Alice", true, 0⟩), ("s2", ⟨"Bob", false, 0⟩)], 2⟩ : Room).users with
        | some hostSid => [SEmit.unicast hostSid SMsg.readyToConnect]
        | none => []
      else []) ∧
    handleJoinEsm ⟨[("abc", ⟨[("s1", ⟨"Alice", true, 0⟩)], 1⟩)], [("s1", ["abc"])]⟩
        "s2" "abc" false "Bob" 0 0
      = handleJoinCjs ⟨[("abc", ⟨[("s1", ⟨"Alice", true, 0⟩)], 1⟩)], [("s1", ["abc"])]⟩
        "s2" "abc" false "Bob" 0 0 :=
  c2_ready_to_connect_iff_two_peers_and_host _ "s2" "abc" false "Bob" 0 0 _ (by decide)

theorem mapGet_foldl_mapSet (l acc : List (String × Json)) (k : String)
    (h : mapGet l k = none) :
    mapGet (l.foldl (fun a q => mapSet a q.1 q.2) acc) k = mapGet acc k := by
  induction l generalizing acc with
  | nil => simp
  | cons hd tl ih =>
      have h1 : ¬hd.1 = k := by
        intro hh
        simp [mapGet, hh] at h
      have h2 : mapGet tl k = none := by
        simpa [mapGet, h1] using h
      simp only [List.foldl_cons]
      rw [ih _ h2]
      exact mapGet_mapSet_ne acc hd.2 (fun hh => h1 hh.symm)

/-- C7 (counterexample): the chat envelope built by sendMessage has no field
named `kind` — its discriminant is named `type` — and the player-sync envelope
carries no top-level `action`; the payload sits nested under `data`. -/
theorem c7_envelopes_use_type_not_kind :
    jget (chatEnvelope "hi" "A" "2024-01-01T00:00:00.000Z") "kind" = none ∧
    jget (chatEnvelope "hi" "A" "2024-01-01T00:00:00.000Z") "type"
      = some (.str "chat") ∧
    jget (playerSyncEnvelope "play" []) "kind" = none ∧
    jget (playerSyncEnvelope "play" []) "action" = none ∧
    jget (playerSyncEnvelope "play" []) "data"
      = some (.obj [("action", .str "play")]) :=
  ⟨rfl, rfl, rfl, rfl, rfl⟩

/-- C7 (amended): every envelope transmitted on the data channel discriminates
on a top-level field named `type` valued "chat" or "player-sync"; the chat
envelope carries text, sender and the ISO-8601 timestamp at top level; the
player-sync envelope instead nests action (and any optional videoId /
currentTime fields) inside a single `data` object and has no such top-level
fields; no envelope has a `kind` field. -/
theorem c7_amended_envelope_shape (s : ClientState) (text tsISO action : String)
    (data : List (String × Json)) (p : Json) :
    (CAction.channelSend p ∈ (sendMessage s text tsISO).2 →
      jget p "kind" = none ∧
      jget p "type" = some (.str "chat") ∧
      jget p "text" = some (.str text) ∧
      jget p "sender" = some (.str s.username) ∧
      jget p "timestamp" = some (.str tsISO)) ∧
    (CAction.channelSend p ∈ (syncPlayer s action data).2 →
      jget p "kind" = none ∧
      jget p "type" = some (.str "player-sync") ∧
      jget p "action" = none ∧
      jget p "videoId" = none ∧
      jget p "currentTime" = none ∧
      ∃ d, jget p "data" = some (.obj d) ∧
        (mapGet data "action" = none → mapGet d "action" = some (.str action))) := by
  constructor
  · intro hp
    match hch : s.dataChannel with
    | none => rw [sendMessage, hch] at hp; simp at hp
    | some ch =>
        rw [sendMessage, hch] at hp
        by_cases hrs : ch.readyState = "open"
        · simp [hrs] at hp
          subst hp
          exact ⟨rfl, rfl, rfl, rfl, rfl⟩
        · simp [hrs] at hp
  · intro hp
    match hch : s.dataChannel with
    | none => rw [syncPlayer, hch] at hp; simp at hp
    | some ch =>
        rw [syncPlayer, hch] at hp
        by_cases hrs : ch.readyState = "open"
        · simp [hrs] at hp
          subst hp
          refine ⟨rfl, rfl, rfl, rfl, rfl,
            objFields (("action", Json.str action) :: data), rfl, ?_⟩
          intro hdata
          show mapGet ((("action", Json.str action) :: data).foldl
            (fun a q => mapSet a q.1 q.2) []) "action" = some (Json.str action)
          rw [List.foldl_cons]
          rw [mapGet_foldl_mapSet data _ "action" hdata]
          rfl
        · simp [hrs] at hp

/-- C7 (amended, witness): the shape facts evaluated for a concrete chat
envelope sent over an open channel. -/
theorem c7_amended_witness :
    jget (chatEnvelope "hi" "A" "T0") "kind" = none ∧
    jget (chatEnvelope "hi" "A" "T0") "type" = some (.str "chat") ∧
    jget (chatEnvelope "hi" "A" "T0") "text" = some (.str "hi") ∧
    jget (chatEnvelope "hi" "A" "T0") "sender" = some (.str "A") ∧
    jget (chatEnvelope "hi" "A" "T0") "timestamp" = some (.str "T0") :=
  (c7_amended_envelope_shape ⟨"abc", true, "A", 1, true, some ⟨"open"⟩⟩
    "hi" "T0" "play" [] (chatEnvelope "hi" "A" "T0")).1 (by simp [sendMessage])

/-- C8: a chat envelope produced by sendMessage on an open channel and handed
to the receiving peer's data-channel message handler yields exactly one
chat-message callback whose text and sender are the ones sent. -/
theorem c8_chat_roundtrip (s : ClientState) (ch : DataChannel) (text tsISO : String)
    (hch : s.dataChannel = some ch) (hopen : ch.readyState = "open") :
    (sendMessage s text tsISO).2
      = [CAction.channelSend (chatEnvelope text s.username tsISO)] ∧
    onDataMessage (chatEnvelope text s.username tsISO)
      = [CAction.cbMessage (some (.str text)) (some (.str s.username))
          (some (.str tsISO))] := by
  constructor
  · simp [sendMessage, hch, hopen]
  · rfl

/-- C8 (witness): the round trip evaluated for text "hi" from sender "A". -/
theorem c8_chat_roundtrip_witness :
    (sendMessage ⟨"abc", true, "A", 1, true, some ⟨"open"⟩⟩ "hi" "T0").2
      = [CAction.channelSend (chatEnvelope "hi" "A" "T0")] ∧
    onDataMessage (chatEnvelope "hi" "A" "T0")
      = [CAction.cbMessage (some (.str "hi")) (some (.str "A"))
          (some (.str "T0"))] :=
  c8_chat_roundtrip ⟨"abc", true, "A", 1, true, some ⟨"open"⟩⟩ ⟨"open"⟩ "hi" "T0" rfl rfl

/-- C9: sendMessage and syncPlayer never change the client state, and they
transmit exactly one serialized envelope when the data channel exists and its
readyState is "open", and transmit nothing at all otherwise. -/
theorem c9_send_only_when_open (s : ClientState) (text nowISO action : String)
    (data : List (String × Json)) :
    (sendMessage s text nowISO).1 = s ∧
    (syncPlayer s action data).1 = s ∧
    (sendMessage s text nowISO).2
      = (if isChannelOpen s then
          [CAction.channelSend (chatEnvelope text s.username nowISO)]
        else []) ∧
    (syncPlayer s action data).2
      = (if isChannelOpen s then
          [CAction.channelSend (playerSyncEnvelope action data)]
        else []) := by
  match hch : s.dataChannel with
  | none => simp [sendMessage, syncPlayer, isChannelOpen, hch]
  | some ch =>
      by_cases hrs : ch.readyState = "open"
      · simp [sendMessage, syncPlayer, isChannelOpen, hch, hrs]
      · simp [sendMessage, syncPlayer, isChannelOpen, hch, hrs]

/-- C6: across all client handlers, an SDP offer is created or emitted only by
the ready-to-connect handler and only when this client is the host; a non-host
receiving ready-to-connect changes nothing and sends nothing; sendMessage,
syncPlayer and the data-channel message handler never produce an offer. -/
theorem c6_offer_only_from_ready (s : ClientState) (e : CEvent)
    (text tsISO action : String) (data : List (String × Json)) (j : Json) :
    ((handleSignal s e).2.any isOfferAction = true →
      e = CEvent.readyToConnect ∧ s.isHost = true) ∧
    (sendMessage s text tsISO).2.any isOfferAction = false ∧
    (syncPlayer s action data).2.any isOfferAction = false ∧
    (onDataMessage j).any isOfferAction = false ∧
    (s.isHost = false → handleSignal s CEvent.readyToConnect = (s, [])) := by
  have hsend : (sendMessage s text tsISO).2.any isOfferAction = false := by
    match hch : s.dataChannel with
    | none => simp [sendMessage, hch]
    | some ch =>
        by_cases hrs : ch.readyState = "open"
        · simp [sendMessage, hch, hrs, isOfferAction]
        · simp [sendMessage, hch, hrs]
  have hsync : (syncPlayer s action data).2.any isOfferAction = false := by
    match hch : s.dataChannel with
    | none => simp [syncPlayer, hch]
    | some ch =>
        by_cases hrs : ch.readyState = "open"
        · simp [syncPlayer, hch, hrs, isOfferAction]
        · simp [syncPlayer, hch, hrs]
  have hdata : (onDataMessage j).any isOfferAction = false := by
    match hj : jget j "type" with
    | none => simp [onDataMessage, hj]
    | some v =>
        match v with
        | .str t =>
            by_cases ht : t = "chat"
            · simp [onDataMessage, hj, ht, isOfferAction]
            · by_cases ht2 : t = "player-sync"
              · simp [onDataMessage, hj, ht, ht2, isOfferAction]
              · simp [onDataMessage, hj, ht, ht2]
        | .null => simp [onDataMessage, hj]
        | .bool b => simp [onDataMessage, hj]
        | .num q => simp [onDataMessage, hj]
        | .arr xs => simp [onDataMessage, hj]
        | .obj fs => simp [onDataMessage, hj]
  have hnonhost : s.isHost = false → handleSignal s CEvent.readyToConnect = (s, []) := by
    intro hh
    simp [handleSignal, hh]
  refine ⟨?_, hsend, hsync, hdata, hnonhost⟩
  cases e with
  | roomJoined pc => simp [handleSignal]
  | peerJoined pc => simp [handleSignal, isOfferAction]
  | peerLeft pc => simp [handleSignal, isOfferAction]
  | offerMsg payload =>
      by_cases hpc : s.hasPeerConnection
      · simp [handleSignal, hpc, isOfferAction]
      · simp [handleSignal, hpc, isOfferAction]
  | answerMsg payload =>
      by_cases hpc : s.hasPeerConnection
      · simp [handleSignal, hpc, isOfferAction]
      · simp [handleSignal, hpc]
  | iceMsg payload =>
      by_cases hpc : s.hasPeerConnection
      · simp [handleSignal, hpc, isOfferAction]
      · simp [handleSignal, hpc]
  | readyToConnect =>
      intro hany
      by_cases hcond : (s.isHost && s.hasPeerConnection) = true
      · exact ⟨rfl, (Bool.and_eq_true _ _ |>.mp hcond).1⟩
      · rw [handleSignal] at hany
        simp only [Bool.not_eq_true] at hcond
        rw [hcond] at hany
        simp at hany

/-- C6 (witness): a host with a live peer connection does emit an offer on
ready-to-connect, and a non-host receiving ready-to-connect is a strict no-op. -/
theorem c6_witness :
    (CEvent.readyToConnect = CEvent.readyToConnect ∧
      (⟨"abc", true, "A", 1, true, none⟩ : ClientState).isHost = true) ∧
    handleSignal ⟨"abc", false, "B", 1, true, none⟩ CEvent.readyToConnect
      = (⟨"abc", false, "B", 1, true, none⟩, []) :=
  ⟨(c6_offer_only_from_ready ⟨"abc", true, "A", 1, true, none⟩ CEvent.readyToConnect
      "t" "T0" "play" [] Json.null).1 rfl,
    (c6_offer_only_from_ready ⟨"abc", false, "B", 1, true, none⟩ CEvent.readyToConnect
      "t" "T0" "play" [] Json.null).2.2.2.2 rfl⟩

theorem scan_get_none (sid : String) (l : List (String × Room)) (rid : String)
    (h : mapGet l rid = none) : mapGet (disconnectRoomsCjs sid l).1 rid = none := by
  induction l with
  | nil => simpa [disconnectRoomsCjs] using h
  | cons hd tl ih =>
      obtain ⟨rid0, room0⟩ := hd
      have h1 : ¬rid0 = rid := by
        intro hh
        simp [mapGet, hh] at h
      have h2 : mapGet tl rid = none := by
        simpa [mapGet, h1] using h
      simp only [disconnectRoomsCjs]
      cases hu : mapGet room0.users sid with
      | some user =>
          by_cases hz : (mapDelete room0.users sid).length = 0
          · simp [hu, hz, ih h2]
          · simp [hu, hz, mapGet, h1, ih h2]
      | none => simp [hu, mapGet, h1, ih h2]

theorem scan_count_none (sid : String) (l : List (String × Room)) (rid : String)
    (h : mapGet l rid = none) :
    (disconnectRoomsCjs sid l).2.countP (isPeerLeftTo rid) = 0 := by
  induction l with
  | nil => simp [disconnectRoomsCjs]
  | cons hd tl ih =>
      obtain ⟨rid0, room0⟩ := hd
      have h1 : ¬rid0 = rid := by
        intro hh
        simp [mapGet, hh] at h
      have h2 : mapGet tl rid = none := by
        simpa [mapGet, h1] using h
      simp only [disconnectRoomsCjs]
      cases hu : mapGet room0.users sid with
      | some user =>
          by_cases hz : (mapDelete room0.users sid).length = 0
          · simp [hu, hz, List.countP_cons, isPeerLeftTo, h1, ih h2]
          · simp [hu, hz, List.countP_cons, isPeerLeftTo, h1, ih h2]
      | none => simp [hu, ih h2]

theorem scan_unaffected (sid : String) (l : List (String × Room)) (rid : String)
    (room : Room) (hnd : (l.map Prod.fst).Nodup) (h : mapGet l rid = some room)
    (hu : mapGet room.users sid = none) :
    mapGet (disconnectRoomsCjs sid l).1 rid = some room ∧
    (disconnectRoomsCjs sid l).2.countP (isPeerLeftTo rid) = 0 := by
  induction l with
  | nil => simp [mapGet] at h
  | cons hd tl ih =>
      obtain ⟨rid0, room0⟩ := hd
      simp only [List.map_cons, List.nodup_cons] at hnd
      by_cases hr : rid0 = rid
      · subst hr
        have hrm : room0 = room := by simpa [mapGet] using h
        subst hrm
        have htl : mapGet tl rid0 = none := (mapGet_eq_none_iff tl rid0).mpr hnd.1
        simp only [disconnectRoomsCjs]
        simp [hu, mapGet, scan_count_none sid tl rid0 htl]
      · have h2 : mapGet tl rid = some room := by
          simpa [mapGet, hr] using h
        have hrest := ih hnd.2 h2
        simp only [disconnectRoomsCjs]
        cases hu0 : mapGet room0.users sid with
        | some user =>
            by_cases hz : (mapDelete room0.users sid).length = 0
            · simp [hu0, hz, List.countP_cons, isPeerLeftTo, hr, hrest.1, hrest.2]
            · simp [hu0, hz, List.countP_cons, isPeerLeftTo, hr, mapGet, hrest.1, hrest.2]
        | none => simp [hu0, mapGet, hr, hrest.1, hrest.2]

theorem scan_affected (sid : String) (l : List (String × Room)) (rid : String)
    (room : Room) (user : Participant) (hnd : (l.map Prod.fst).Nodup)
    (h : mapGet l rid = some room) (hu : mapGet room.users sid = some user) :
    (disconnectRoomsCjs sid l).2.countP (isPeerLeftTo rid) = 1 ∧
    SEmit.toRoom rid sid
        (SMsg.peerLeft sid (mapDelete room.users sid).length user.username)
      ∈ (disconnectRoomsCjs sid l).2 ∧
    mapGet (disconnectRoomsCjs sid l).1 rid =
      (if (mapDelete room.users sid).length = 0 then none
       else some ⟨mapDelete room.users sid, (mapDelete room.users sid).length⟩) := by
  induction l with
  | nil => simp [mapGet] at h
  | cons hd tl ih =>
      obtain ⟨rid0, room0⟩ := hd
      simp only [List.map_cons, List.nodup_cons] at hnd
      by_cases hr : rid0 = rid
      · subst hr
        have hrm : room0 = room := by simpa [mapGet] using h
        subst hrm
        have htl : mapGet tl rid0 = none := (mapGet_eq_none_iff tl rid0).mpr hnd.1
        have hcount := scan_count_none sid tl rid0 htl
        have hget := scan_get_none sid tl rid0 htl
        simp only [disconnectRoomsCjs]
        by_cases hz : (mapDelete room0.users sid).length = 0
        · simp [hu, hz, List.countP_cons, isPeerLeftTo, hcount, hget]
        · simp [hu, hz, List.countP_cons, isPeerLeftTo, hcount, mapGet]
      · have h2 : mapGet tl rid = some room := by
          simpa [mapGet, hr] using h
        have hrest := ih hnd.2 h2
        simp only [disconnectRoomsCjs]
        cases hu0 : mapGet room0.users sid with
        | some user0 =>
            by_cases hz : (mapDelete room0.users sid).length = 0
            · simp [hu0, hz, List.countP_cons, isPeerLeftTo, hr,
                hrest.1, hrest.2.1, hrest.2.2]
            · simp [hu0, hz, List.countP_cons, isPeerLeftTo, hr, mapGet,
                hrest.1, hrest.2.1, hrest.2.2]
        | none => simp [hu0, mapGet, hr, hrest.1, hrest.2.1, hrest.2.2]

/-- C4: on an abrupt disconnect of `sid` (registry with no duplicate room
keys): every room not containing `sid` is left exactly as it was and receives
no peer-left; every room containing `sid` gets exactly one peer-left broadcast,
carrying the updated peersCount and the removed participant's username, and is
kept with `sid` removed — or deleted when it became empty; no new rooms appear;
and the ESM disconnect handler is identical. -/
theorem c4_disconnect_cleanup (s : ServerState) (sid : String)
    (hnd : (s.rooms.map Prod.fst).Nodup) :
    (∀ rid room, mapGet s.rooms rid = some room → mapGet room.users sid = none →
      mapGet (handleDisconnectCjs s sid).1.rooms rid = some room ∧
      (handleDisconnectCjs s sid).2.countP (isPeerLeftTo rid) = 0) ∧
    (∀ rid room user, mapGet s.rooms rid = some room →
      mapGet room.users sid = some user →
      (handleDisconnectCjs s sid).2.countP (isPeerLeftTo rid) = 1 ∧
      SEmit.toRoom rid sid
          (SMsg.peerLeft sid (mapDelete room.users sid).length user.username)
        ∈ (handleDisconnectCjs s sid).2 ∧
      mapGet (handleDisconnectCjs s sid).1.rooms rid =
        (if (mapDelete room.users sid).length = 0 then none
         else some ⟨mapDelete room.users sid, (mapDelete room.users sid).length⟩)) ∧
    (∀ rid, mapGet s.rooms rid = none →
      mapGet (handleDisconnectCjs s sid).1.rooms rid = none) ∧
    handleDisconnectEsm s sid = handleDisconnectCjs s sid := by
  refine ⟨?_, ?_, ?_, handleDisconnectEsm_eq_cjs s sid⟩
  · intro rid room h hu
    simpa [handleDisconnectCjs] using scan_unaffected sid s.rooms rid room hnd h hu
  · intro rid room user h hu
    simpa [handleDisconnectCjs] using scan_affected sid s.rooms rid room user hnd h hu
  · intro rid h
    simpa [handleDisconnectCjs] using scan_get_none sid s.rooms rid h

/-- C4 (witness): participant "p", present in rooms "r1" (with "q") and "r2"
(alone), disconnects: "r2" is deleted after its single peer-left; "r1" keeps
"q". -/
theorem c4_witness :
    ((handleDisconnectCjs
        ⟨[("r1", ⟨[("p", ⟨"A", true, 0⟩), ("q", ⟨"B", false, 0⟩)], 2⟩),
          ("r2", ⟨[("p", ⟨"A", true, 0⟩)], 1⟩)], []⟩ "p").2.countP
        (isPeerLeftTo "r2") = 1) ∧
    SEmit.toRoom "r2" "p"
        (SMsg.peerLeft "p" (mapDelete [("p", (⟨"A", true, 0⟩ : Participant))] "p").length
          (⟨"A", true, 0⟩ : Participant).username)
      ∈ (handleDisconnectCjs
        ⟨[("r1", ⟨[("p", ⟨"A", true, 0⟩), ("q", ⟨"B", false, 0⟩)], 2⟩),
          ("r2", ⟨[("p", ⟨"A", true, 0⟩)], 1⟩)], []⟩ "p").2 ∧
    mapGet (handleDisconnectCjs
        ⟨[("r1", ⟨[("p", ⟨"A", true, 0⟩), ("q", ⟨"B", false, 0⟩)], 2⟩),
          ("r2", ⟨[("p", ⟨"A", true, 0⟩)], 1⟩)], []⟩ "p").1.rooms "r2" =
      (if (mapDelete [("p", (⟨"A", true, 0⟩ : Participant))] "p").length = 0 then none
       else some ⟨mapDelete [("p", (⟨"A", true, 0⟩ : Participant))] "p",
        (mapDelete [("p", (⟨"A", true, 0⟩ : Participant))] "p").length⟩) :=
  (c4_disconnect_cleanup
    ⟨[("r1", ⟨[("p", ⟨"A", true, 0⟩), ("q", ⟨"B", false, 0⟩)], 2⟩),
      ("r2", ⟨[("p", ⟨"A", true, 0⟩)], 1⟩)], []⟩ "p" (by decide)).2.1
    "r2" ⟨[("p", ⟨"A", true, 0⟩)], 1⟩ ⟨"A", true, 0⟩ (by decide) (by decide)

theorem mapSet_ne_nil {α : Type} (l : List (String × α)) (k : String) (v : α) :
    mapSet l k v ≠ [] := by
  cases l with
  | nil => simp [mapSet]
  | cons hd tl =>
      by_cases hk : hd.1 = k
      · simp [mapSet, hk]
      · simp [mapSet, hk]

theorem stripEmpty_some_elim {o : Option Room} {r : Room}
    (h : stripEmpty o = some r) : o = some r ∧ r.users ≠ [] := by
  match o with
  | none => simp [stripEmpty] at h
  | some r0 =>
      by_cases he : r0.users.isEmpty
      · simp [stripEmpty, he] at h
      · simp only [stripEmpty, he, if_neg, Bool.false_eq_true, not_false_iff,
          if_false, Option.some.injEq] at h
        subst h
        refine ⟨rfl, ?_⟩
        simpa [List.isEmpty_iff] using he

theorem stripEmpty_none_elim {o : Option Room} (h : stripEmpty o = none) :
    o = none ∨ ∃ r, o = some r ∧ r.users = [] := by
  match o with
  | none => exact Or.inl rfl
  | some r0 =>
      by_cases he : r0.users.isEmpty
      · exact Or.inr ⟨r0, rfl, by simpa [List.isEmpty_iff] using he⟩
      · simp [stripEmpty, he] at h

theorem stripEmpty_some_of_ne {r : Room} (h : r.users ≠ []) :
    stripEmpty (some r) = some r := by
  simp [stripEmpty, List.isEmpty_iff, h]

theorem stripEmpty_some_of_nil {r : Room} (h : r.users = []) :
    stripEmpty (some r) = none := by
  simp [stripEmpty, List.isEmpty_iff, h]

theorem sockLeave_eq_of_not_room {memb : List (String × List String)}
    {sid roomId : String}
    (h : ∀ rs, mapGet memb sid = some rs → roomId ∉ rs) :
    sockLeave memb sid roomId = memb := by
  cases hm : mapGet memb sid with
  | none => simp [sockLeave, hm]
  | some rs =>
      simp only [sockLeave, hm]
      rw [List.erase_of_not_mem (h rs hm)]
      exact mapSet_eq_self hm

theorem join_post_inv (a b : ServerState) (sid roomId : String) (part : Participant)
    (h : EquivInv a b) (roomsA1 roomsB1 : List (String × Room))
    (U : List (String × Participant))
    (hA1 : ∀ rid, rid ≠ roomId → mapGet roomsA1 rid = mapGet a.rooms rid)
    (hB1 : ∀ rid, rid ≠ roomId → mapGet roomsB1 rid = mapGet b.rooms rid)
    (hA1n : (roomsA1.map Prod.fst).Nodup) (hB1n : (roomsB1.map Prod.fst).Nodup)
    (hU : ∀ rb, mapGet b.rooms roomId = some rb → U = rb.users) :
    EquivInv
      ⟨mapSet roomsA1 roomId ⟨mapSet U sid part, (mapSet U sid part).length⟩,
        mapSet a.memb sid [roomId]⟩
      ⟨mapSet roomsB1 roomId ⟨mapSet U sid part, (mapSet U sid part).length⟩,
        mapSet b.memb sid [roomId]⟩ := by
  refine ⟨?_, ?_, ?_, ?_, ?_, ?_, ?_⟩
  · intro rid
    by_cases hr : rid = roomId
    · subst hr
      simp only [mapGet_mapSet_self]
      exact stripEmpty_some_of_ne (mapSet_ne_nil U sid part)
    · simp only [mapGet_mapSet_ne _ _ hr, hA1 rid hr, hB1 rid hr]
      exact h.agree rid
  · simp only [h.memb_eq]
  · exact nodup_keys_mapSet _ _ _ hA1n
  · exact nodup_keys_mapSet _ _ _ hB1n
  · exact nodup_keys_mapSet _ _ _ h.membNodup
  · intro rid room hr
    by_cases hr0 : rid = roomId
    · subst hr0
      rw [mapGet_mapSet_self] at hr
      injection hr with hr
      subst hr
      exact mapSet_ne_nil U sid part
    · rw [mapGet_mapSet_ne _ _ hr0, hB1 rid hr0] at hr
      exact h.bne rid room hr
  · intro sid0 rs hm
    by_cases hs : sid0 = sid
    · subst hs
      rw [mapGet_mapSet_self] at hm
      injection hm with hm
      subst hm
      refine ⟨List.nodup_singleton roomId, ?_⟩
      intro rid hrid
      rw [List.mem_singleton] at hrid
      subst hrid
      refine ⟨⟨mapSet U sid0 part, (mapSet U sid0 part).length⟩,
        mapGet_mapSet_self _ _ _, ?_⟩
      simp [mapHas, mapGet_mapSet_self]
    · rw [mapGet_mapSet_ne _ _ hs] at hm
      obtain ⟨hnd, hval⟩ := h.membOK sid0 rs hm
      refine ⟨hnd, ?_⟩
      intro rid hrid
      obtain ⟨room, hroom, hhas⟩ := hval rid hrid
      by_cases hr : rid = roomId
      · subst hr
        refine ⟨⟨mapSet U sid part, (mapSet U sid part).length⟩,
          mapGet_mapSet_self _ _ _, ?_⟩
        have hu := hU room hroom
        subst hu
        simpa [mapHas, mapGet_mapSet_ne _ _ hs] using hhas
      · exact ⟨room, by rw [mapGet_mapSet_ne _ _ hr, hB1 rid hr]; exact hroom, hhas⟩

theorem join_preserve (a b : ServerState) (sid roomId : String) (isHost : Bool)
    (username : String) (rnd now : Nat) (h : EquivInv a b) :
    EquivInv (handleJoinCjs a sid roomId isHost username rnd now).1
      (handleJoinEsm b sid roomId isHost username rnd now).1 ∧
    (handleJoinCjs a sid roomId isHost username rnd now).2
      = (handleJoinEsm b sid roomId isHost username rnd now).2 := by
  rw [handleJoinEsm_eq_handleJoinCjs]
  cases hb : mapGet b.rooms roomId with
  | some rb =>
      have hag := h.agree roomId
      rw [hb] at hag
      obtain ⟨ha, hne⟩ := stripEmpty_some_elim hag
      constructor
      · have hpost := join_post_inv a b sid roomId
          ⟨effectiveUsername username rnd, isHost, now⟩ h a.rooms b.rooms rb.users
          (fun _ _ => rfl) (fun _ _ => rfl) h.aNodup h.bNodup
          (fun rb0 h0 => by rw [hb] at h0; injection h0 with h0; rw [h0])
        have ea : (handleJoinCjs a sid roomId isHost username rnd now).1 =
            ⟨mapSet a.rooms roomId
              ⟨mapSet rb.users sid ⟨effectiveUsername username rnd, isHost, now⟩,
                (mapSet rb.users sid ⟨effectiveUsername username rnd, isHost, now⟩).length⟩,
              mapSet a.memb sid [roomId]⟩ := by
          simp [handleJoinCjs, getRoomInfo, ha]
        have eb : (handleJoinCjs b sid roomId isHost username rnd now).1 =
            ⟨mapSet b.rooms roomId
              ⟨mapSet rb.users sid ⟨effectiveUsername username rnd, isHost, now⟩,
                (mapSet rb.users sid ⟨effectiveUsername username rnd, isHost, now⟩).length⟩,
              mapSet b.memb sid [roomId]⟩ := by
          simp [handleJoinCjs, getRoomInfo, hb]
        rw [ea, eb]
        exact hpost
      · simp [handleJoinCjs, getRoomInfo, ha, hb]
  | none =>
      have hag := h.agree roomId
      rw [hb] at hag
      have hU : ∀ rb, mapGet b.rooms roomId = some rb →
          ([] : List (String × Participant)) = rb.users := by
        intro rb h0
        rw [hb] at h0
        cases h0
      rcases stripEmpty_none_elim hag with ha | ⟨ra, ha, hra⟩
      · constructor
        · have hpost := join_post_inv a b sid roomId
            ⟨effectiveUsername username rnd, isHost, now⟩ h
            (mapSet a.rooms roomId ⟨[], 0⟩) (mapSet b.rooms roomId ⟨[], 0⟩) []
            (fun rid hr => mapGet_mapSet_ne _ _ hr) (fun rid hr => mapGet_mapSet_ne _ _ hr)
            (nodup_keys_mapSet _ _ _ h.aNodup) (nodup_keys_mapSet _ _ _ h.bNodup) hU
          have ea : (handleJoinCjs a sid roomId isHost username rnd now).1 =
              ⟨mapSet (mapSet a.rooms roomId ⟨[], 0⟩) roomId
                ⟨mapSet ([] : List (String × Participant)) sid ⟨effectiveUsername username rnd, isHost, now⟩,
                  (mapSet ([] : List (String × Participant)) sid ⟨effectiveUsername username rnd, isHost, now⟩).length⟩,
                mapSet a.memb sid [roomId]⟩ := by
            simp [handleJoinCjs, getRoomInfo, ha]
          have eb : (handleJoinCjs b sid roomId isHost username rnd now).1 =
              ⟨mapSet (mapSet b.rooms roomId ⟨[], 0⟩) roomId
                ⟨mapSet ([] : List (String × Participant)) sid ⟨effectiveUsername username rnd, isHost, now⟩,
                  (mapSet ([] : List (String × Participant)) sid ⟨effectiveUsername username rnd, isHost, now⟩).length⟩,
                mapSet b.memb sid [roomId]⟩ := by
            simp [handleJoinCjs, getRoomInfo, hb]
          rw [ea, eb]
          exact hpost
        · simp [handleJoinCjs, getRoomInfo, ha, hb]
      · constructor
        · have hpost := join_post_inv a b sid roomId
            ⟨effectiveUsername username rnd, isHost, now⟩ h
            a.rooms (mapSet b.rooms roomId ⟨[], 0⟩) []
            (fun _ _ => rfl) (fun rid hr => mapGet_mapSet_ne _ _ hr)
            h.aNodup (nodup_keys_mapSet _ _ _ h.bNodup) hU
          have ea : (handleJoinCjs a sid roomId isHost username rnd now).1 =
              ⟨mapSet a.rooms roomId
                ⟨mapSet ([] : List (String × Participant)) sid ⟨effectiveUsername username rnd, isHost, now⟩,
                  (mapSet ([] : List (String × Participant)) sid ⟨effectiveUsername username rnd, isHost, now⟩).length⟩,
                mapSet a.memb sid [roomId]⟩ := by
            simp [handleJoinCjs, getRoomInfo, ha, hra]
          have eb : (handleJoinCjs b sid roomId isHost username rnd now).1 =
              ⟨mapSet (mapSet b.rooms roomId ⟨[], 0⟩) roomId
                ⟨mapSet ([] : List (String × Participant)) sid ⟨effectiveUsername username rnd, isHost, now⟩,
                  (mapSet ([] : List (String × Participant)) sid ⟨effectiveUsername username rnd, isHost, now⟩).length⟩,
                mapSet b.memb sid [roomId]⟩ := by
            simp [handleJoinCjs, getRoomInfo, hb]
          rw [ea, eb]
          exact hpost
        · simp [handleJoinCjs, getRoomInfo, ha, hb, hra]

theorem mapGet_sockLeave_self (memb : List (String × List String)) (sid roomId : String) :
    mapGet (sockLeave memb sid roomId) sid = (mapGet memb sid).map (·.erase roomId) := by
  cases hm : mapGet memb sid with
  | none => simp [sockLeave, hm]
  | some rs => simp [sockLeave, hm, mapGet_mapSet_self]

theorem mapGet_sockLeave_ne (memb : List (String × List String)) {sid roomId sid0 : String}
    (hs : sid0 ≠ sid) :
    mapGet (sockLeave memb sid roomId) sid0 = mapGet memb sid0 := by
  cases hm : mapGet memb sid with
  | none => simp [sockLeave, hm]
  | some rs => simp [sockLeave, hm, mapGet_mapSet_ne _ _ hs]

theorem sockLeave_keys_nodup (memb : List (String × List String)) (sid roomId : String)
    (h : (memb.map Prod.fst).Nodup) :
    ((sockLeave memb sid roomId).map Prod.fst).Nodup := by
  cases hm : mapGet memb sid with
  | none => simpa [sockLeave, hm]
  | some rs =>
      simp only [sockLeave, hm]
      exact nodup_keys_mapSet _ _ _ h

theorem sockLeave_memb_eq {membA membB : List (String × List String)}
    (h : membA = membB) (sid roomId : String) :
    sockLeave membA sid roomId = sockLeave membB sid roomId := by rw [h]

theorem leave_preserve (a b : ServerState) (sid roomId : String) (h : EquivInv a b) :
    EquivInv (handleLeaveCjs a sid roomId).1 (handleLeaveEsm b sid roomId).1 ∧
    (handleLeaveCjs a sid roomId).2 = (handleLeaveEsm b sid roomId).2 := by
  cases hb : mapGet b.rooms roomId with
  | none =>
      have hag := h.agree roomId
      rw [hb] at hag
      have hmemb : sockLeave a.memb sid roomId = a.memb := by
        apply sockLeave_eq_of_not_room
        intro rs hm hmem
        obtain ⟨-, hval⟩ := h.membOK sid rs hm
        obtain ⟨room, hroom, -⟩ := hval roomId hmem
        rw [hb] at hroom
        cases hroom
      have heb : handleLeaveEsm b sid roomId = (b, []) := by
        simp [handleLeaveEsm, hb]
      rcases stripEmpty_none_elim hag with ha | ⟨ra, ha, hra⟩
      · have hea : handleLeaveCjs a sid roomId =
            (⟨mapSet a.rooms roomId ⟨[], 0⟩, sockLeave a.memb sid roomId⟩, []) := by
          simp [handleLeaveCjs, getRoomInfo, ha, mapGet]
        rw [hea, heb, hmemb]
        refine ⟨⟨?_, h.memb_eq, nodup_keys_mapSet _ _ _ h.aNodup, h.bNodup,
          h.membNodup, h.bne, h.membOK⟩, rfl⟩
        intro rid
        by_cases hr : rid = roomId
        · subst hr
          rw [mapGet_mapSet_self, hb, stripEmpty_some_of_nil rfl]
        · rw [mapGet_mapSet_ne _ _ hr]
          exact h.agree rid
      · have hea : handleLeaveCjs a sid roomId =
            (⟨a.rooms, sockLeave a.memb sid roomId⟩, []) := by
          simp [handleLeaveCjs, getRoomInfo, ha, hra, mapGet]
        rw [hea, heb, hmemb]
        exact ⟨h, rfl⟩
  | some rb =>
      have hag := h.agree roomId
      rw [hb] at hag
      obtain ⟨ha, hrbne⟩ := stripEmpty_some_elim hag
      cases hu : mapGet rb.users sid with
      | none =>
          have hea : handleLeaveCjs a sid roomId =
              (⟨a.rooms, sockLeave a.memb sid roomId⟩, []) := by
            simp [handleLeaveCjs, getRoomInfo, ha, hu]
          have heb : handleLeaveEsm b sid roomId =
              (⟨b.rooms, sockLeave b.memb sid roomId⟩, []) := by
            simp [handleLeaveEsm, hb, hu]
          rw [hea, heb]
          refine ⟨⟨h.agree, sockLeave_memb_eq h.memb_eq sid roomId, h.aNodup, h.bNodup,
            sockLeave_keys_nodup _ _ _ h.membNodup, h.bne, ?_⟩, rfl⟩
          intro sid0 rs hm
          by_cases hs : sid0 = sid
          · subst hs
            rw [mapGet_sockLeave_self] at hm
            cases hm0 : mapGet a.memb sid0 with
            | none => rw [hm0] at hm; cases hm
            | some rs0 =>
                rw [hm0] at hm
                injection hm with hm
                subst hm
                obtain ⟨hnd, hval⟩ := h.membOK sid0 rs0 hm0
                refine ⟨hnd.erase roomId, ?_⟩
                intro rid hrid
                exact hval rid (List.mem_of_mem_erase hrid)
          · rw [mapGet_sockLeave_ne _ hs] at hm
            exact h.membOK sid0 rs hm
      | some user =>
          by_cases hz : (mapDelete rb.users sid).length = 0
          · have hnil : mapDelete rb.users sid = [] := List.length_eq_zero.mp hz
            have hea : handleLeaveCjs a sid roomId =
                (⟨mapSet a.rooms roomId
                    ⟨mapDelete rb.users sid, (mapDelete rb.users sid).length⟩,
                  sockLeave a.memb sid roomId⟩,
                  [SEmit.toRoom roomId sid (SMsg.peerLeft sid
                    (mapDelete rb.users sid).length user.username)]) := by
              simp [handleLeaveCjs, getRoomInfo, ha, hu]
            have heb : handleLeaveEsm b sid roomId =
                (⟨mapDelete b.rooms roomId, sockLeave b.memb sid roomId⟩,
                  [SEmit.toRoom roomId sid (SMsg.peerLeft sid
                    (mapDelete rb.users sid).length user.username)]) := by
              simp [handleLeaveEsm, hb, hu, hz]
            rw [hea, heb]
            refine ⟨⟨?_, sockLeave_memb_eq h.memb_eq sid roomId,
              nodup_keys_mapSet _ _ _ h.aNodup, nodup_keys_mapDelete _ _ h.bNodup,
              sockLeave_keys_nodup _ _ _ h.membNodup, ?_, ?_⟩, rfl⟩
            · intro rid
              by_cases hr : rid = roomId
              · subst hr
                rw [mapGet_mapSet_self, mapGet_mapDelete_self _ _ h.bNodup,
                  stripEmpty_some_of_nil hnil]
              · rw [mapGet_mapSet_ne _ _ hr, mapGet_mapDelete_ne _ hr]
                exact h.agree rid
            · intro rid room hr
              by_cases hr0 : rid = roomId
              · subst hr0
                rw [mapGet_mapDelete_self _ _ h.bNodup] at hr
                cases hr
              · rw [mapGet_mapDelete_ne _ hr0] at hr
                exact h.bne rid room hr
            · intro sid0 rs hm
              by_cases hs : sid0 = sid
              · subst hs
                rw [mapGet_sockLeave_self] at hm
                cases hm0 : mapGet a.memb sid0 with
                | none => rw [hm0] at hm; cases hm
                | some rs0 =>
                    rw [hm0] at hm
                    injection hm with hm
                    subst hm
                    obtain ⟨hnd, hval⟩ := h.membOK sid0 rs0 hm0
                    refine ⟨hnd.erase roomId, ?_⟩
                    intro rid hrid
                    have hrne : rid ≠ roomId := ((hnd.mem_erase_iff).mp hrid).1
                    obtain ⟨room, hroom, hhas⟩ := hval rid (List.mem_of_mem_erase hrid)
                    exact ⟨room, by rw [mapGet_mapDelete_ne _ hrne]; exact hroom, hhas⟩
              · rw [mapGet_sockLeave_ne _ hs] at hm
                obtain ⟨hnd, hval⟩ := h.membOK sid0 rs hm
                refine ⟨hnd, ?_⟩
                intro rid hrid
                obtain ⟨room, hroom, hhas⟩ := hval rid hrid
                by_cases hr : rid = roomId
                · subst hr
                  rw [hb] at hroom
                  injection hroom with hroom
                  subst hroom
                  have : mapGet (mapDelete rb.users sid) sid0 = mapGet rb.users sid0 :=
                    mapGet_mapDelete_ne _ hs
                  rw [hnil] at this
                  simp only [mapGet] at this
                  rw [mapHas, ← this] at hhas
                  simp at hhas
                · exact ⟨room, by rw [mapGet_mapDelete_ne _ hr]; exact hroom, hhas⟩
          · have hea : handleLeaveCjs a sid roomId =
                (⟨mapSet a.rooms roomId
                    ⟨mapDelete rb.users sid, (mapDelete rb.users sid).length⟩,
                  sockLeave a.memb sid roomId⟩,
                  [SEmit.toRoom roomId sid (SMsg.peerLeft sid
                    (mapDelete rb.users sid).length user.username)]) := by
              simp [handleLeaveCjs, getRoomInfo, ha, hu]
            have heb : handleLeaveEsm b sid roomId =
                (⟨mapSet b.rooms roomId
                    ⟨mapDelete rb.users sid, (mapDelete rb.users sid).length⟩,
                  sockLeave b.memb sid roomId⟩,
                  [SEmit.toRoom roomId sid (SMsg.peerLeft sid
                    (mapDelete rb.users sid).length user.username)]) := by
              simp [handleLeaveEsm, hb, hu, hz]
            have husers : mapDelete rb.users sid ≠ [] := by
              intro hx
              rw [hx] at hz
              simp at hz
            rw [hea, heb]
            refine ⟨⟨?_, sockLeave_memb_eq h.memb_eq sid roomId,
              nodup_keys_mapSet _ _ _ h.aNodup, nodup_keys_mapSet _ _ _ h.bNodup,
              sockLeave_keys_nodup _ _ _ h.membNodup, ?_, ?_⟩, rfl⟩
            · intro rid
              by_cases hr : rid = roomId
              · subst hr
                rw [mapGet_mapSet_self, mapGet_mapSet_self,
                  stripEmpty_some_of_ne husers]
              · rw [mapGet_mapSet_ne _ _ hr, mapGet_mapSet_ne _ _ hr]
                exact h.agree rid
            · intro rid room hr
              by_cases hr0 : rid = roomId
              · subst hr0
                rw [mapGet_mapSet_self] at hr
                injection hr with hr
                subst hr
                exact husers
              · rw [mapGet_mapSet_ne _ _ hr0] at hr
                exact h.bne rid room hr
            · intro sid0 rs hm
              by_cases hs : sid0 = sid
              · subst hs
                rw [mapGet_sockLeave_self] at hm
                cases hm0 : mapGet a.memb sid0 with
                | none => rw [hm0] at hm; cases hm
                | some rs0 =>
                    rw [hm0] at hm
                    injection hm with hm
                    subst hm
                    obtain ⟨hnd, hval⟩ := h.membOK sid0 rs0 hm0
                    refine ⟨hnd.erase roomId, ?_⟩
                    intro rid hrid
                    have hrne : rid ≠ roomId := ((hnd.mem_erase_iff).mp hrid).1
                    obtain ⟨room, hroom, hhas⟩ := hval rid (List.mem_of_mem_erase hrid)
                    exact ⟨room, by rw [mapGet_mapSet_ne _ _ hrne]; exact hroom, hhas⟩
              · rw [mapGet_sockLeave_ne _ hs] at hm
                obtain ⟨hnd, hval⟩ := h.membOK sid0 rs hm
                refine ⟨hnd, ?_⟩
                intro rid hrid
                obtain ⟨room, hroom, hhas⟩ := hval rid hrid
                by_cases hr : rid = roomId
                · subst hr
                  rw [hb] at hroom
                  injection hroom with hroom
                  subst hroom
                  refine ⟨⟨mapDelete rb.users sid, (mapDelete rb.users sid).length⟩,
                    mapGet_mapSet_self _ _ _, ?_⟩
                  rw [mapHas] at hhas ⊢
                  rwa [mapGet_mapDelete_ne _ hs]
                · exact ⟨room, by rw [mapGet_mapSet_ne _ _ hr]; exact hroom, hhas⟩

theorem scan_keys_sublist (sid : String) (l : List (String × Room)) :
    List.Sublist ((disconnectRoomsCjs sid l).1.map Prod.fst) (l.map Prod.fst) := by
  induction l with
  | nil => simp [disconnectRoomsCjs]
  | cons hd tl ih =>
      obtain ⟨rid0, room0⟩ := hd
      simp only [disconnectRoomsCjs]
      cases hu : mapGet room0.users sid with
      | some user =>
          by_cases hz : (mapDelete room0.users sid).length = 0
          · simp only [hu, hz, if_pos rfl, List.map_cons]
            exact ih.cons rid0
          · simp only [hu, hz, if_neg hz, List.map_cons]
            exact ih.cons₂ rid0
      | none =>
          simp only [hu, List.map_cons]
          exact ih.cons₂ rid0

theorem scan_keys_nodup (sid : String) (l : List (String × Room))
    (h : (l.map Prod.fst).Nodup) :
    ((disconnectRoomsCjs sid l).1.map Prod.fst).Nodup :=
  (scan_keys_sublist sid l).nodup h

theorem scan_emits_eq (sid : String) (l : List (String × Room)) :
    (disconnectRoomsCjs sid l).2 = l.flatMap (emitOf sid) := by
  induction l with
  | nil => simp [disconnectRoomsCjs]
  | cons hd tl ih =>
      obtain ⟨rid0, room0⟩ := hd
      simp only [disconnectRoomsCjs, List.flatMap_cons]
      cases hu : mapGet room0.users sid with
      | some user =>
          by_cases hz : (mapDelete room0.users sid).length = 0
          · simp [hu, hz, emitOf, ih]
          · simp [hu, hz, emitOf, ih]
      | none => simp [hu, emitOf, ih]

theorem filter_get (l : List (String × Room)) (rid : String)
    (h : (l.map Prod.fst).Nodup) :
    mapGet (l.filter (fun p => !p.2.users.isEmpty)) rid = stripEmpty (mapGet l rid) := by
  induction l with
  | nil => simp [mapGet, stripEmpty]
  | cons hd tl ih =>
      obtain ⟨rid0, room0⟩ := hd
      simp only [List.map_cons, List.nodup_cons] at h
      by_cases he : room0.users.isEmpty
      · have hnil : room0.users = [] := by simpa [List.isEmpty_iff] using he
        rw [List.filter_cons_of_neg (by simp [he])]
        by_cases hr : rid0 = rid
        · subst hr
          rw [ih h.2, (mapGet_eq_none_iff tl rid0).mpr h.1]
          simp [mapGet, stripEmpty, hnil]
        · rw [ih h.2]
          simp [mapGet, hr]
      · rw [List.filter_cons_of_pos (by simp [he])]
        by_cases hr : rid0 = rid
        · subst hr
          simp [mapGet, stripEmpty, he]
        · simp only [mapGet, if_neg hr]
          exact ih h.2

theorem perm_cons_delete {α : Type} {l : List (String × α)} {k : String} {v : α}
    (h : mapGet l k = some v) : l.Perm ((k, v) :: mapDelete l k) := by
  induction l with
  | nil => simp [mapGet] at h
  | cons hd tl ih =>
      obtain ⟨k0, v0⟩ := hd
      by_cases hk : k0 = k
      · subst hk
        have hv : v0 = v := by simpa [mapGet] using h
        subst hv
        simp [mapDelete]
      · have h2 : mapGet tl k = some v := by simpa [mapGet, hk] using h
        simp only [mapDelete, if_neg hk]
        exact ((ih h2).cons (k0, v0)).trans (List.Perm.swap _ _ _)

theorem perm_of_get_eq {α : Type} (x y : List (String × α))
    (hx : (x.map Prod.fst).Nodup) (hy : (y.map Prod.fst).Nodup)
    (hget : ∀ k, mapGet x k = mapGet y k) : x.Perm y := by
  induction x generalizing y with
  | nil =>
      cases y with
      | nil => exact List.Perm.refl _
      | cons hd tl =>
          have := hget hd.1
          simp [mapGet] at this
  | cons hd tl ih =>
      obtain ⟨k, v⟩ := hd
      simp only [List.map_cons, List.nodup_cons] at hx
      have hyk : mapGet y k = some v := by
        rw [← hget k]
        simp [mapGet]
      have hperm := perm_cons_delete hyk
      have hdnodup : ((mapDelete y k).map Prod.fst).Nodup := nodup_keys_mapDelete _ _ hy
      have hget2 : ∀ k0, mapGet tl k0 = mapGet (mapDelete y k) k0 := by
        intro k0
        by_cases hk0 : k0 = k
        · subst hk0
          rw [mapGet_mapDelete_self _ _ hy]
          exact (mapGet_eq_none_iff tl k0).mpr hx.1
        · have hkk : ¬(k = k0) := fun hh => hk0 hh.symm
          rw [mapGet_mapDelete_ne _ hk0, ← hget k0]
          simp [mapGet, hkk]
      exact ((ih (mapDelete y k) hx.2 hdnodup hget2).cons (k, v)).trans hperm.symm

theorem flatMap_emitOf_filter (sid : String) (l : List (String × Room)) :
    l.flatMap (emitOf sid) = (l.filter (fun p => !p.2.users.isEmpty)).flatMap (emitOf sid) := by
  induction l with
  | nil => rfl
  | cons hd tl ih =>
      by_cases he : hd.2.users.isEmpty
      · have hnil : hd.2.users = [] := by simpa [List.isEmpty_iff] using he
        have hemit : emitOf sid hd = [] := by
          simp [emitOf, hnil, mapGet]
        simp [List.filter_cons, he, List.flatMap_cons, hemit, ih]
      · simp [List.filter_cons, he, List.flatMap_cons, ih]

theorem disconnect_preserve (a b : ServerState) (sid : String) (h : EquivInv a b) :
    EquivInv (handleDisconnectCjs a sid).1 (handleDisconnectEsm b sid).1 ∧
    (handleDisconnectCjs a sid).2.Perm (handleDisconnectEsm b sid).2 := by
  rw [handleDisconnectEsm_eq_cjs]
  constructor
  · refine ⟨?_, ?_, ?_, ?_, ?_, ?_, ?_⟩
    · intro rid
      show stripEmpty (mapGet (disconnectRoomsCjs sid a.rooms).1 rid)
        = mapGet (disconnectRoomsCjs sid b.rooms).1 rid
      cases hb : mapGet b.rooms rid with
      | none =>
          have hag := h.agree rid
          rw [hb] at hag
          have hbpost := scan_get_none sid b.rooms rid hb
          rcases stripEmpty_none_elim hag with ha | ⟨ra, ha, hra⟩
          · rw [scan_get_none sid a.rooms rid ha, hbpost]
            rfl
          · have hu : mapGet ra.users sid = none := by
              rw [hra]
              rfl
            rw [(scan_unaffected sid a.rooms rid ra h.aNodup ha hu).1, hbpost,
              stripEmpty_some_of_nil hra]
      | some rb =>
          have hag := h.agree rid
          rw [hb] at hag
          obtain ⟨ha, hrbne⟩ := stripEmpty_some_elim hag
          cases hu : mapGet rb.users sid with
          | none =>
              rw [(scan_unaffected sid a.rooms rid rb h.aNodup ha hu).1,
                (scan_unaffected sid b.rooms rid rb h.bNodup hb hu).1,
                stripEmpty_some_of_ne hrbne]
          | some user =>
              rw [(scan_affected sid a.rooms rid rb user h.aNodup ha hu).2.2,
                (scan_affected sid b.rooms rid rb user h.bNodup hb hu).2.2]
              by_cases hz : (mapDelete rb.users sid).length = 0
              · rw [if_pos hz]
                rfl
              · rw [if_neg hz]
                exact stripEmpty_some_of_ne
                  (fun hx => hz (by rw [show mapDelete rb.users sid = [] from hx]; rfl))
    · show mapDelete a.memb sid = mapDelete b.memb sid
      rw [h.memb_eq]
    · exact scan_keys_nodup sid a.rooms h.aNodup
    · exact scan_keys_nodup sid b.rooms h.bNodup
    · exact nodup_keys_mapDelete _ _ h.membNodup
    · intro rid room hr
      replace hr : mapGet (disconnectRoomsCjs sid b.rooms).1 rid = some room := hr
      cases hb : mapGet b.rooms rid with
      | none =>
          rw [scan_get_none sid b.rooms rid hb] at hr
          cases hr
      | some rb =>
          cases hu : mapGet rb.users sid with
          | none =>
              rw [(scan_unaffected sid b.rooms rid rb h.bNodup hb hu).1] at hr
              injection hr with hr
              subst hr
              exact h.bne rid rb hb
          | some user =>
              rw [(scan_affected sid b.rooms rid rb user h.bNodup hb hu).2.2] at hr
              by_cases hz : (mapDelete rb.users sid).length = 0
              · rw [if_pos hz] at hr
                cases hr
              · rw [if_neg hz] at hr
                injection hr with hr
                subst hr
                exact fun hx => hz (by rw [show mapDelete rb.users sid = [] from hx]; rfl)
    · intro sid0 rs hm
      replace hm : mapGet (mapDelete a.memb sid) sid0 = some rs := hm
      by_cases hs : sid0 = sid
      · subst hs
        rw [mapGet_mapDelete_self _ _ h.membNodup] at hm
        cases hm
      · rw [mapGet_mapDelete_ne _ hs] at hm
        obtain ⟨hnd, hval⟩ := h.membOK sid0 rs hm
        refine ⟨hnd, ?_⟩
        intro rid hrid
        obtain ⟨room, hroom, hhas⟩ := hval rid hrid
        cases hu : mapGet room.users sid with
        | none =>
            exact ⟨room, (scan_unaffected sid b.rooms rid room h.bNodup hroom hu).1, hhas⟩
        | some user =>
            have hhas0 : mapGet (mapDelete room.users sid) sid0 = mapGet room.users sid0 :=
              mapGet_mapDelete_ne _ hs
            have hne : mapDelete room.users sid ≠ [] := by
              intro hx
              rw [hx] at hhas0
              rw [mapHas, ← hhas0] at hhas
              simp [mapGet] at hhas
            have hz : ¬(mapDelete room.users sid).length = 0 := by
              intro hx
              exact hne (List.length_eq_zero.mp hx)
            refine ⟨⟨mapDelete room.users sid, (mapDelete room.users sid).length⟩, ?_, ?_⟩
            · show mapGet (disconnectRoomsCjs sid b.rooms).1 rid
                = some ⟨mapDelete room.users sid, (mapDelete room.users sid).length⟩
              rw [(scan_affected sid b.rooms rid room user h.bNodup hroom hu).2.2,
                if_neg hz]
            · rw [mapHas]
              show (mapGet (mapDelete room.users sid) sid0).isSome = true
              rw [hhas0]
              exact hhas
  · show (disconnectRoomsCjs sid a.rooms).2.Perm (disconnectRoomsCjs sid b.rooms).2
    rw [scan_emits_eq, scan_emits_eq, flatMap_emitOf_filter sid a.rooms]
    have hperm : (a.rooms.filter (fun p => !p.2.users.isEmpty)).Perm b.rooms := by
      apply perm_of_get_eq
      · exact (((List.filter_sublist _)).map Prod.fst).nodup h.aNodup
      · exact h.bNodup
      · intro k
        rw [filter_get a.rooms k h.aNodup]
        exact h.agree k
    exact hperm.flatMap_right (emitOf sid)

theorem equivInv_init : EquivInv initServer initServer := by
  refine ⟨fun rid => rfl, rfl, by simp [initServer], by simp [initServer],
    by simp [initServer], ?_, ?_⟩
  · intro rid room hr
    simp [initServer, mapGet] at hr
  · intro sid0 rs hm
    simp [initServer, mapGet] at hm

theorem step_preserve (a b : ServerState) (e : SEvent) (h : EquivInv a b) :
    EquivInv (stepCjs a e).1 (stepEsm b e).1 ∧ (stepCjs a e).2.Perm (stepEsm b e).2 := by
  cases e with
  | joinRoom sid roomId isHost username rnd now =>
      obtain ⟨h1, h2⟩ := join_preserve a b sid roomId isHost username rnd now h
      refine ⟨h1, ?_⟩
      show (handleJoinCjs a sid roomId isHost username rnd now).2.Perm
        (handleJoinEsm b sid roomId isHost username rnd now).2
      rw [h2]
  | offerEv sid roomId payload => exact ⟨h, List.Perm.refl _⟩
  | answerEv sid roomId payload => exact ⟨h, List.Perm.refl _⟩
  | iceEv sid roomId payload => exact ⟨h, List.Perm.refl _⟩
  | leaveRoom sid roomId =>
      obtain ⟨h1, h2⟩ := leave_preserve a b sid roomId h
      refine ⟨h1, ?_⟩
      show (handleLeaveCjs a sid roomId).2.Perm (handleLeaveEsm b sid roomId).2
      rw [h2]
  | disconnectEv sid => exact disconnect_preserve a b sid h

theorem run_preserve (evs : List SEvent) (a b : ServerState) (h : EquivInv a b) :
    EquivInv (runCjs a evs).1 (runEsm b evs).1 ∧
    (runCjs a evs).2.Perm (runEsm b evs).2 := by
  induction evs generalizing a b with
  | nil => exact ⟨h, List.Perm.refl _⟩
  | cons e es ih =>
      obtain ⟨h1, h2⟩ := step_preserve a b e h
      obtain ⟨h3, h4⟩ := ih (stepCjs a e).1 (stepEsm b e).1 h1
      refine ⟨h3, ?_⟩
      show ((stepCjs a e).2 ++ (runCjs (stepCjs a e).1 es).2).Perm
        ((stepEsm b e).2 ++ (runEsm (stepEsm b e).1 es).2)
      exact h2.append h4

/-- C10 (amended): the two servers are not fully equivalent (the CommonJS one
retains or creates empty rooms on `leave-room` where the ESM one deletes or
never creates them), but they stay in lock-step on everything else: for every
event sequence the final registries agree on every room once empty rooms are
disregarded, the socket.io memberships are identical (so broadcasts reach the
same connections), and the emitted messages are the same up to the order in
which the disconnect scan interleaves per-room broadcasts. -/
theorem c10_amended_lockstep (evs : List SEvent) :
    (∀ rid, stripEmpty (mapGet (runCjs initServer evs).1.rooms rid)
      = mapGet (runEsm initServer evs).1.rooms rid) ∧
    (runCjs initServer evs).1.memb = (runEsm initServer evs).1.memb ∧
    (runCjs initServer evs).2.Perm (runEsm initServer evs).2 := by
  obtain ⟨h1, h2⟩ := run_preserve evs initServer initServer equivInv_init
  exact ⟨h1.agree, h1.memb_eq, h2⟩
